import Mathlib

/-!
Shallow embedding of the HierarchyCraft purpose layer
(`src/crafting/purpose.py`) together with the parts of the task,
transformation and requirement-graph modules it depends on.

Python mutable objects become explicit records threaded through
functions; Python `dict`s (insertion ordered) become association lists;
Python `float` rewards become `ℚ`; a raised `NotImplementedError`
becomes `Except String`.
-/

namespace Crafting

/-- An item of the world, identified by its name (`crafting.world.Item`). -/
structure Item where
  name : String
deriving DecidableEq, Repr

/-- A zone of the world, identified by its name (`crafting.world.Zone`). -/
structure Zone where
  name : String
deriving DecidableEq, Repr

/-- An item together with a quantity, default 1 (`crafting.world.ItemStack`). -/
structure ItemStack where
  item : Item
  quantity : Nat := 1
deriving DecidableEq, Repr

/-- The numeric observation a purpose receives each step: the player
inventory, the agent position and the per-zone inventories
(`player_inventory, position, zones_inventory` arrays in the source),
abstracted as count functions. -/
structure State where
  player_inventory : Item → Nat
  position : Zone
  zones_inventory : Zone → Item → Nat

/-- The task variants of `crafting.task`.  `GetItemTask`, `GoToZoneTask`
and `PlaceItemTask` are the supported variants; `custom` stands for any
other `Task` subclass (the test suite defines such subclasses), carrying
only an identifier.  For `placeItem`, `zones = []` plays the role of
Python's `zones=None` (unrestricted), matching the source's use of
truthiness (`task.zones if task.zones else []`). -/
inductive Task where
  | getItem (stack : ItemStack) (reward : ℚ)
  | goToZone (zone : Zone) (reward : ℚ)
  | placeItem (stack : ItemStack) (zones : List Zone) (reward : ℚ)
  | custom (id : Nat) (reward : ℚ)
deriving DecidableEq, Repr

/-- Modelled from the spec: `crafting/task.py` is absent from the sources;
the spec gives each variant's goal predicate (GetItemTask: player count of
the item reaches the requested quantity; GoToZoneTask: current zone equals
the goal zone; PlaceItemTask: the item appears in the current zone's
inventory, or in any of the candidate zones if restricted).  A `custom`
task's predicate is unknown, taken as never true. -/
def Task.pred : Task → State → Bool
  | .getItem stack _, s => stack.quantity ≤ s.player_inventory stack.item
  | .goToZone zone _, s => s.position = zone
  | .placeItem stack zones _, s =>
      match zones with
      | [] => stack.quantity ≤ s.zones_inventory s.position stack.item
      | zs => zs.any fun z => stack.quantity ≤ s.zones_inventory z stack.item
  | .custom _ _, _ => false

/-- The reward value a task was constructed with. -/
def Task.rewardValue : Task → ℚ
  | .getItem _ r => r
  | .goToZone _ r => r
  | .placeItem _ _ r => r
  | .custom _ r => r

/-- Modelled from the spec: `crafting/task.py` is absent from the sources;
the spec states the reward is edge-triggered — granted once, on the first
step the predicate becomes true, zero afterwards.  The ended flag is the
one the purpose records for the task. -/
def Task.reward (t : Task) (ended : Bool) (s : State) : ℚ :=
  if ¬ended ∧ t.pred s then t.rewardValue else 0

/-- `crafting.purpose.RewardShaping` enum. -/
inductive RewardShaping where
  | NONE
  | ALL_ACHIVEMENTS
  | REQUIRED_ACHIVEMENTS
  | INPUTS_ACHIVEMENT
deriving DecidableEq, Repr

/-! ### Insertion-ordered dictionaries as association lists -/

/-- Python `d[k]` lookup (as an `Option`). -/
def dictGet? {α β : Type} [DecidableEq α] (l : List (α × β)) (k : α) : Option β :=
  (l.find? fun kv => kv.1 = k).map fun kv => kv.2

/-- Python `d[k] = v`: update in place if the key is present (keys are
unique in every dictionary the code builds), else append. -/
def dictSet {α β : Type} [DecidableEq α] : List (α × β) → α → β → List (α × β)
  | [], k, v => [(k, v)]
  | kv :: rest, k, v =>
      if kv.1 = k then (k, v) :: rest else kv :: dictSet rest k v

/-! ### Purpose -/

/-- `crafting.purpose.Purpose` state: list of tasks, per-step reward, the
shaping value, the default shaping, and the three task-keyed mappings. -/
structure Purpose where
  tasks : List Task
  timestep_reward : ℚ
  shaping_value : ℚ
  default_reward_shaping : RewardShaping
  task_has_ended : List (Task × Bool)
  reward_shaping : List (Task × RewardShaping)
  terminal_groups : List (String × List Task)
deriving DecidableEq, Repr

/-- A fresh purpose as produced by `Purpose.__init__` with no tasks. -/
def Purpose.init (timestep_reward : ℚ := 0) (shaping_value : ℚ := 1)
    (default_reward_shaping : RewardShaping := .NONE) : Purpose :=
  { tasks := []
    timestep_reward := timestep_reward
    shaping_value := shaping_value
    default_reward_shaping := default_reward_shaping
    task_has_ended := []
    reward_shaping := []
    terminal_groups := [] }

/-- `Purpose.add_task`.  `terminal_groups` is given as the list of group
names: Python's `"g"` is `["g"]`, and the falsy values `None` and `''`
are `[]` (the source tests `if terminal_groups:`). -/
def Purpose.add_task (p : Purpose) (task : Task)
    (reward_shaping : Option RewardShaping := none)
    (terminal_groups : List String := ["default"]) : Purpose :=
  let rs := reward_shaping.getD p.default_reward_shaping
  let groups := terminal_groups.foldl
    (fun gs g =>
      match dictGet? gs g with
      | none => gs ++ [(g, [task])]
      | some ts => dictSet gs g (ts ++ [task]))
    p.terminal_groups
  { p with
    task_has_ended := dictSet p.task_has_ended task false
    terminal_groups := groups
    reward_shaping := dictSet p.reward_shaping task rs
    tasks := p.tasks ++ [task] }

/-- `Purpose.reward`: the timestep reward plus each task's own reward
(the source returns early on an empty task list, which sums to the same). -/
def Purpose.reward (p : Purpose) (s : State) : ℚ :=
  if p.tasks = [] then p.timestep_reward
  else p.tasks.foldl
    (fun acc t => acc + t.reward ((dictGet? p.task_has_ended t).getD false) s)
    p.timestep_reward

/-- The flag-update loop of `Purpose.is_terminal`: every task not yet
flagged ended whose predicate holds gets its flag set. -/
def updateEnded (tasks : List Task) (s : State) (d : List (Task × Bool)) :
    List (Task × Bool) :=
  tasks.foldl
    (fun d t =>
      if (dictGet? d t).getD true = false ∧ t.pred s then dictSet d t true
      else d)
    d

/-- `Purpose.is_terminal`: returns false on an empty task list; otherwise
updates the sticky flags, then returns whether any terminal group has all
its member tasks flagged ended.  The updated purpose is returned alongside
the boolean (the Python method mutates `self.task_has_ended`). -/
def Purpose.is_terminal (p : Purpose) (s : State) : Bool × Purpose :=
  if p.tasks = [] then (false, p)
  else
    let ended := updateEnded p.tasks s p.task_has_ended
    let term := p.terminal_groups.any fun g =>
      g.2.all fun t => (dictGet? ended t).getD false
    (term, { p with task_has_ended := ended })

/-- A whole episode's worth of `is_terminal` calls: threads the purpose
through the list of states, collecting each call's boolean result. -/
def Purpose.runTerminal (p : Purpose) : List State → List Bool × Purpose
  | [] => ([], p)
  | s :: rest =>
      ((p.is_terminal s).1 :: (((p.is_terminal s).2).runTerminal rest).1,
       (((p.is_terminal s).2).runTerminal rest).2)

/-- `Purpose.optional_tasks`: the tasks in no terminal group at all. -/
def Purpose.optional_tasks (p : Purpose) : List Task :=
  let terminal_tasks := p.terminal_groups.foldl (fun acc g => acc ++ g.2) []
  p.tasks.filter fun t => ¬t ∈ terminal_tasks

/-! ### Transformations and the requirements graph -/

/-- `crafting.transformation.Transformation`, restricted to the attributes
the purpose layer reads.  `zones = []` plays the role of Python's
`zones=None` (no restriction), matching the source's truthiness test
`if transfo.zones:`. -/
structure Transformation where
  destination : Option Zone := none
  zones : List Zone := []
  removed_player_items : List ItemStack := []
  added_player_items : List ItemStack := []
  removed_zone_items : List ItemStack := []
  added_zone_items : List ItemStack := []
  removed_destination_items : List ItemStack := []
  added_destination_items : List ItemStack := []
deriving DecidableEq, Repr

/-- Modelled from the spec: `crafting/transformation.py` is absent from
the sources; `produced_items` are the items added to the player
inventory. -/
def Transformation.produced_items (t : Transformation) : List Item :=
  t.added_player_items.map fun st => st.item

/-- Modelled from the spec: items removed from the player inventory. -/
def Transformation.consumed_items (t : Transformation) : List Item :=
  t.removed_player_items.map fun st => st.item

/-- Modelled from the spec: items added to a zone inventory (the current
zone's or the destination's). -/
def Transformation.produced_zones_items (t : Transformation) : List Item :=
  (t.added_zone_items ++ t.added_destination_items).map fun st => st.item

/-- Modelled from the spec: items removed from a zone inventory (the
current zone's or the destination's). -/
def Transformation.consumed_zones_items (t : Transformation) : List Item :=
  (t.removed_zone_items ++ t.removed_destination_items).map fun st => st.item

/-- A node of the requirements graph: the three node kinds
{ITEM, ZONE, ZONE_ITEM} of `crafting.requirement_graph.ReqNodesTypes`;
the constructor tag plays the role of `req_node_name`'s disambiguation. -/
inductive ReqNode where
  | item (i : Item)
  | zone (z : Zone)
  | zoneItem (i : Item)
deriving DecidableEq, Repr

/-- Modelled from the spec: `crafting/requirement_graph.py` is absent from
the sources; the spec builds the graph by adding, for every
transformation, an edge from each consumed element (its remove entries
and its zones precondition) to each produced element (player-added items
as ITEM nodes, zone-added items as ZONE_ITEM nodes, the destination as a
ZONE node).  These are the produced nodes of one transformation. -/
def Transformation.producedNodes (t : Transformation) : List ReqNode :=
  t.added_player_items.map (fun st => ReqNode.item st.item)
    ++ (t.added_zone_items ++ t.added_destination_items).map
        (fun st => ReqNode.zoneItem st.item)
    ++ t.destination.toList.map ReqNode.zone

/-- Modelled from the spec: the consumed nodes of one transformation (its
remove entries as ITEM or ZONE_ITEM nodes and its zones precondition as
ZONE nodes). -/
def Transformation.consumedNodes (t : Transformation) : List ReqNode :=
  t.removed_player_items.map (fun st => ReqNode.item st.item)
    ++ (t.removed_zone_items ++ t.removed_destination_items).map
        (fun st => ReqNode.zoneItem st.item)
    ++ t.zones.map ReqNode.zone

/-- Modelled from the spec: the edge list of the requirements graph, one
edge consumed → produced per pair within each transformation. -/
def reqEdges (ts : List Transformation) : List (ReqNode × ReqNode) :=
  ts.foldl
    (fun es t =>
      es ++ t.producedNodes.foldl
        (fun es' p => es' ++ t.consumedNodes.map fun c => (c, p))
        [])
    []

/-- The direct predecessors of a node in the edge list. -/
def parentsOf (edges : List (ReqNode × ReqNode)) (n : ReqNode) : List ReqNode :=
  (edges.filter fun e => e.2 = n).map fun e => e.1

/-- Worklist reverse-reachability search with fuel (the spec asks for a
visited-set guard so a malformed cyclic configuration cannot loop). -/
def ancestorsAux (edges : List (ReqNode × ReqNode)) :
    Nat → List ReqNode → List ReqNode → List ReqNode
  | 0, _, acc => acc
  | fuel + 1, worklist, acc =>
      match worklist with
      | [] => acc
      | n :: rest =>
          let new := (parentsOf edges n).filter fun x => ¬x ∈ acc
          ancestorsAux edges fuel (rest ++ new) (acc ++ new)

/-- Modelled from the spec: `ancestors(node)`, the transitive closure of
everything required, directly or indirectly, to reach `node`
(`networkx.ancestors` in the source).  Each search round either consumes
a worklist entry or discovers a new node, and there are at most
`edges.length` discoverable nodes, so the fuel suffices. -/
def ancestors (edges : List (ReqNode × ReqNode)) (n : ReqNode) : List ReqNode :=
  ancestorsAux edges (2 * edges.length + 2) [n] []

/-- The static catalog of `crafting.world.World` read by the shaping code. -/
structure World where
  items : List Item
  zones : List Zone
  zones_items : List Item
deriving DecidableEq, Repr

/-- The slice of `crafting.env.CraftingEnv` the purpose layer reads: its
transformations and its world; `requirements_graph` is derived below. -/
structure Env where
  transformations : List Transformation
  world : World
deriving DecidableEq, Repr

/-- `env.requirements_graph`, as its edge list. -/
def Env.reqGraph (env : Env) : List (ReqNode × ReqNode) :=
  reqEdges env.transformations

/-! ### Shaping subtask synthesis -/

/-- Insert into a duplicate-free list (Python `set.add`, with insertion
order standing in for the set's iteration order). -/
def insertU {α : Type} [DecidableEq α] (l : List α) (a : α) : List α :=
  if a ∈ l then l else l ++ [a]

/-- Union into a duplicate-free list (Python `set |= ...`). -/
def unionU {α : Type} [DecidableEq α] (l : List α) (xs : List α) : List α :=
  xs.foldl insertU l

/-- `_build_reward_shaping_subtasks`: one `GetItemTask` per item, one
`GoToZoneTask` per zone, one `PlaceItemTask` (any zone) per zone item. -/
def buildRewardShapingSubtasks (items : List Item) (zones : List Zone)
    (zone_items : List Item) (shaping_reward : ℚ) : List Task :=
  items.map (fun i => Task.getItem ⟨i, 1⟩ shaping_reward)
    ++ zones.map (fun z => Task.goToZone z shaping_reward)
    ++ zone_items.map (fun i => Task.placeItem ⟨i, 1⟩ [] shaping_reward)

/-- `_all_subtasks`: one subtask per catalog element. -/
def allSubtasks (env : Env) (shaping_reward : ℚ) : List Task :=
  buildRewardShapingSubtasks env.world.items env.world.zones
    env.world.zones_items shaping_reward

/-- `_required_subtasks`: resolve the goal task to its requirement-graph
nodes, take the union of their ancestors, partition by node kind, and
emit one subtask per element; unsupported task variants raise. -/
def requiredSubtasks (task : Task) (env : Env) (shaping_reward : ℚ) :
    Except String (List Task) :=
  match task with
  | .custom _ _ =>
      .error "Unsupported reward shaping required for given task type"
  | _ =>
      let goalNodes : List ReqNode :=
        match task with
        | .getItem stack _ => [ReqNode.item stack.item]
        | .placeItem stack zones _ =>
            ReqNode.zoneItem stack.item :: zones.map ReqNode.zone
        | .goToZone z _ => [ReqNode.zone z]
        | .custom _ _ => []
      let zones0 : List Zone :=
        match task with
        | .placeItem _ zones _ => unionU [] zones
        | _ => []
      let ancs := goalNodes.foldl
        (fun acc n => unionU acc (ancestors env.reqGraph n)) []
      let relevant_items := ancs.filterMap fun n =>
        match n with | .item i => some i | _ => none
      let relevant_zones := unionU zones0 (ancs.filterMap fun n =>
        match n with | .zone z => some z | _ => none)
      let relevant_zone_items := ancs.filterMap fun n =>
        match n with | .zoneItem i => some i | _ => none
      .ok (buildRewardShapingSubtasks relevant_items relevant_zones
        relevant_zone_items shaping_reward)

/-- `transfo_giving_item` of `_inputs_subtasks`: the transformations that
produce the goal item without also consuming it. -/
def transfosGivingItem (env : Env) (goal_item : Option Item) :
    List Transformation :=
  env.transformations.filter fun t =>
    match goal_item with
    | some g => g ∈ t.produced_items ∧ ¬g ∈ t.consumed_items
    | none => false

/-- `transfo_placing_zone_item` of `_inputs_subtasks`. -/
def transfosPlacingZoneItem (env : Env) (goal_zone_item : Option Item) :
    List Transformation :=
  env.transformations.filter fun t =>
    match goal_zone_item with
    | some g => g ∈ t.produced_zones_items ∧ ¬g ∈ t.consumed_zones_items
    | none => false

/-- `transfo_going_to_any_zones` of `_inputs_subtasks`. -/
def transfosGoingToAnyZones (env : Env) (goal_zones : List Zone) :
    List Transformation :=
  env.transformations.filter fun t =>
    match t.destination with
    | some d => d ∈ goal_zones
    | none => false

/-- The collection loop of `_inputs_subtasks`: union the consumed items,
the zones preconditions and the consumed zone items of the relevant
transformations. -/
def collectInputs (rel : List Transformation) (zones0 : List Zone) :
    List Item × List Zone × List Item :=
  rel.foldl
    (fun (acc : List Item × List Zone × List Item) t =>
      (unionU acc.1 t.consumed_items,
       if t.zones ≠ [] then unionU acc.2.1 t.zones else acc.2.1,
       unionU acc.2.2 t.consumed_zones_items))
    ([], zones0, [])

/-- `_inputs_subtasks`: collect the transformations that directly and
exclusively produce the goal, then emit one subtask per element of their
remove sets and zones preconditions (one hop, no transitive closure);
unsupported task variants raise. -/
def inputsSubtasks (task : Task) (env : Env) (shaping_reward : ℚ) :
    Except String (List Task) :=
  match task with
  | .custom _ _ =>
      .error "Unsupported reward shaping inputs for given task type"
  | _ =>
      let goal_item : Option Item :=
        match task with | .getItem stack _ => some stack.item | _ => none
      let goal_zone_item : Option Item :=
        match task with | .placeItem stack _ _ => some stack.item | _ => none
      let goal_zones : List Zone :=
        match task with
        | .goToZone z _ => [z]
        | .placeItem _ zones _ => zones
        | _ => []
      let zones0 : List Zone :=
        match task with
        | .placeItem _ zones _ => unionU [] zones
        | _ => []
      let relevant_transformations :=
        transfosGivingItem env goal_item
          ++ transfosPlacingZoneItem env goal_zone_item
          ++ transfosGoingToAnyZones env goal_zones
      let collected := collectInputs relevant_transformations zones0
      .ok (buildRewardShapingSubtasks collected.1 collected.2.1 collected.2.2
        shaping_reward)

/-- `Purpose._add_reward_shaping_subtasks`: dispatch on the shaping mode. -/
def Purpose.addRewardShapingSubtasks (p : Purpose) (task : Task) (env : Env)
    (reward_shaping : RewardShaping) : Except String (List Task) :=
  match reward_shaping with
  | .NONE => .ok []
  | .ALL_ACHIVEMENTS => .ok (allSubtasks env p.shaping_value)
  | .INPUTS_ACHIVEMENT => inputsSubtasks task env p.shaping_value
  | .REQUIRED_ACHIVEMENTS => requiredSubtasks task env p.shaping_value

/-- Adding a batch of synthesized subtasks, each with shaping NONE and no
terminal group: the inner loop of `Purpose.build`. -/
def Purpose.addAllOptional (p : Purpose) (subs : List Task) : Purpose :=
  subs.foldl (fun q s => q.add_task s (some .NONE) []) p

/-- `Purpose.build`: for each task, synthesize its shaping subtasks and
add each with shaping NONE and no terminal group.  The Python loop
iterates over the live task list, but every task appended during the loop
carries shaping NONE and synthesizes nothing further, and its identity-keyed
dictionary entries never touch the original tasks' entries, so the loop is
one pass over the original list with lookups against the original mapping.
(The final `task.build(env.world)` loop binds tasks to the world and has
no observable effect in this model's pure tasks.) -/
def Purpose.build (p : Purpose) (env : Env) : Except String Purpose :=
  if p.tasks = [] then .ok p
  else do
    let subtaskLists ← p.tasks.mapM fun t =>
      p.addRewardShapingSubtasks t env
        ((dictGet? p.reward_shaping t).getD .NONE)
    .ok (subtaskLists.foldl (fun q subs => q.addAllOptional subs) p)

/-! ### Dictionary lemmas -/

theorem dictGet?_dictSet {α β : Type} [DecidableEq α]
    (l : List (α × β)) (k : α) (v : β) (k' : α) :
    dictGet? (dictSet l k v) k' = if k' = k then some v else dictGet? l k' := by
  induction l with
  | nil =>
      rcases eq_or_ne k' k with rfl | h
      · simp [dictSet, dictGet?, List.find?]
      · simp [dictSet, dictGet?, List.find?, h, Ne.symm h]
  | cons kv rest ih =>
      obtain ⟨a, b⟩ := kv
      simp only [dictSet]
      by_cases hk : a = k
      · rw [if_pos hk]
        rcases eq_or_ne k' k with rfl | h
        · simp [dictGet?, List.find?]
        · simp [dictGet?, List.find?, h, Ne.symm h, hk]
      · rw [if_neg hk]
        by_cases ha : a = k'
        · have h : ¬k' = k := fun hkk => hk (ha.trans hkk)
          simp [dictGet?, List.find?, ha, h]
        · simp only [dictGet?, List.find?] at ih ⊢
          simp [ha, ih]

theorem dictGet?_updateEnded (tasks : List Task) (s : State)
    (d : List (Task × Bool)) (t : Task) :
    dictGet? (updateEnded tasks s d) t =
      (dictGet? d t).map fun b => b || (decide (t ∈ tasks) && t.pred s) := by
  induction tasks generalizing d with
  | nil =>
      cases h : dictGet? d t <;> simp [updateEnded, h]
  | cons a rest ih =>
      have hstep :
          updateEnded (a :: rest) s d =
            updateEnded rest s
              (if (dictGet? d a).getD true = false ∧ a.pred s
               then dictSet d a true else d) := by
        simp [updateEnded]
      rw [hstep]
      rcases eq_or_ne t a with rfl | hne
      · cases hd : dictGet? d t with
        | none =>
            have hcond : ¬((none : Option Bool).getD true = false ∧
                t.pred s = true) := by simp
            rw [if_neg hcond, ih, hd]
            rfl
        | some b =>
            by_cases hc : b = false ∧ t.pred s = true
            · have hcond : (some b).getD true = false ∧ t.pred s = true := by
                simpa using hc
              rw [if_pos hcond, ih, dictGet?_dictSet]
              simp [hc.1, hc.2]
            · have hcond : ¬((some b).getD true = false ∧ t.pred s = true) := by
                simpa using hc
              rw [if_neg hcond, ih, hd]
              rcases Bool.eq_false_or_eq_true b with hb | hb
              · simp [hb]
              · have hp : t.pred s = false := by
                  rcases Bool.eq_false_or_eq_true (t.pred s) with hp | hp
                  · exact absurd ⟨hb, hp⟩ hc
                  · exact hp
                simp [hb, hp]
      · split
        · rw [ih, dictGet?_dictSet, if_neg hne]
          simp [hne]
        · rw [ih]
          simp [hne]

/-- If a task's flag is already true, the flag-update loop keeps it true. -/
theorem updateEnded_true (tasks : List Task) (s : State)
    (d : List (Task × Bool)) (t : Task)
    (h : dictGet? d t = some true) :
    dictGet? (updateEnded tasks s d) t = some true := by
  rw [dictGet?_updateEnded, h]
  rfl

/-! ### `is_terminal` structure lemmas -/

theorem isTerminal_tasks (p : Purpose) (s : State) :
    ((p.is_terminal s).2).tasks = p.tasks := by
  unfold Purpose.is_terminal
  split <;> rfl

theorem isTerminal_groups (p : Purpose) (s : State) :
    ((p.is_terminal s).2).terminal_groups = p.terminal_groups := by
  unfold Purpose.is_terminal
  split <;> rfl

theorem isTerminal_flags (p : Purpose) (s : State) (t : Task) :
    dictGet? ((p.is_terminal s).2).task_has_ended t =
      (dictGet? p.task_has_ended t).map fun b =>
        b || (decide (t ∈ p.tasks) && t.pred s) := by
  unfold Purpose.is_terminal
  split
  · next h =>
      cases hd : dictGet? p.task_has_ended t <;> simp [h, hd]
  · exact dictGet?_updateEnded p.tasks s p.task_has_ended t

theorem isTerminal_fst (p : Purpose) (s : State) (h : ¬p.tasks = []) :
    (p.is_terminal s).1 = p.terminal_groups.any fun g =>
      g.2.all fun t =>
        (dictGet? (updateEnded p.tasks s p.task_has_ended) t).getD false := by
  unfold Purpose.is_terminal
  rw [if_neg h]

theorem runTerminal_tasks (p : Purpose) (states : List State) :
    ((p.runTerminal states).2).tasks = p.tasks := by
  induction states generalizing p with
  | nil => rfl
  | cons s rest ih =>
      simp only [Purpose.runTerminal]
      rw [ih, isTerminal_tasks]

theorem runTerminal_groups (p : Purpose) (states : List State) :
    ((p.runTerminal states).2).terminal_groups = p.terminal_groups := by
  induction states generalizing p with
  | nil => rfl
  | cons s rest ih =>
      simp only [Purpose.runTerminal]
      rw [ih, isTerminal_groups]

/-- Flag evolution over a whole episode: a task of the purpose ends up
flagged exactly when it started flagged or its predicate held at some
visited state. -/
theorem runTerminal_flags (p : Purpose) (states : List State) (t : Task)
    (ht : t ∈ p.tasks) (b : Bool)
    (hb : dictGet? p.task_has_ended t = some b) :
    dictGet? ((p.runTerminal states).2).task_has_ended t =
      some (b || states.any t.pred) := by
  induction states generalizing p b with
  | nil => simpa [Purpose.runTerminal] using hb
  | cons s rest ih =>
      simp only [Purpose.runTerminal]
      have hflag := isTerminal_flags p s t
      rw [hb] at hflag
      have ht' : ((p.is_terminal s).2).tasks = p.tasks := isTerminal_tasks p s
      have := ih ((p.is_terminal s).2) (ht' ▸ ht) (b || (decide (t ∈ p.tasks) && t.pred s))
        (by simpa using hflag)
      simp only [List.any_cons]
      rw [this]
      simp [ht, Bool.or_assoc]

/-- Group satisfaction against the current flags: some terminal group has
all its member tasks flagged ended. -/
def groupSat (q : Purpose) : Bool :=
  q.terminal_groups.any fun g =>
    g.2.all fun t => (dictGet? q.task_has_ended t).getD false

theorem getD_false_eq_true {d : List (Task × Bool)} {t : Task}
    (h : (dictGet? d t).getD false = true) : dictGet? d t = some true := by
  cases hd : dictGet? d t with
  | none => rw [hd] at h; exact absurd h (by simp)
  | some b => rw [hd] at h; simp at h; rw [h]

/-- Once some terminal group is fully ended, any further `is_terminal`
call returns true and leaves the group fully ended. -/
theorem isTerminal_of_groupSat (q : Purpose) (s : State)
    (h1 : groupSat q = true) (h2 : ¬q.tasks = []) :
    (q.is_terminal s).1 = true ∧ groupSat ((q.is_terminal s).2) = true ∧
      ¬((q.is_terminal s).2).tasks = [] := by
  obtain ⟨g, hg, hall⟩ := List.any_eq_true.mp h1
  have hall' := List.all_eq_true.mp hall
  have hkeep : ∀ t ∈ g.2,
      (dictGet? (updateEnded q.tasks s q.task_has_ended) t).getD false = true := by
    intro t htg
    have := getD_false_eq_true (hall' t htg)
    rw [updateEnded_true q.tasks s q.task_has_ended t this]
    rfl
  have hfst : (q.is_terminal s).1 = true := by
    rw [isTerminal_fst q s h2]
    exact List.any_eq_true.mpr ⟨g, hg, List.all_eq_true.mpr hkeep⟩
  refine ⟨hfst, ?_, by rw [isTerminal_tasks]; exact h2⟩
  have hgroups : ((q.is_terminal s).2).terminal_groups = q.terminal_groups :=
    isTerminal_groups q s
  have hflags : ((q.is_terminal s).2).task_has_ended =
      updateEnded q.tasks s q.task_has_ended := by
    unfold Purpose.is_terminal
    rw [if_neg h2]
  unfold groupSat
  rw [hgroups, hflags]
  exact List.any_eq_true.mpr ⟨g, hg, List.all_eq_true.mpr hkeep⟩

/-- Once a group is satisfied, every call of a whole episode suffix
returns true. -/
theorem runTerminal_all_true_of_groupSat (future : List State) (q : Purpose)
    (h1 : groupSat q = true) (h2 : ¬q.tasks = []) :
    ((q.runTerminal future).1.all fun b => b) = true := by
  induction future generalizing q with
  | nil => rfl
  | cons s' rest ih =>
      obtain ⟨hfst, hsat', hne'⟩ := isTerminal_of_groupSat q s' h1 h2
      simp only [Purpose.runTerminal, List.all_cons]
      rw [hfst, ih ((q.is_terminal s').2) hsat' hne']
      rfl

deriving instance DecidableEq for Except

/-! ### The spec's shaping scenario

Transformations: search(item0) giving item0, a craft turning item0 into
item1, and a craft legal only in zone Z turning item1 into item2. -/

def item0 : Item := ⟨"item0"⟩

def item1 : Item := ⟨"item1"⟩

def item2 : Item := ⟨"item2"⟩

def zoneZ : Zone := ⟨"Z"⟩

def searchItem0 : Transformation := { added_player_items := [⟨item0, 1⟩] }

def craftItem1 : Transformation :=
  { removed_player_items := [⟨item0, 1⟩], added_player_items := [⟨item1, 1⟩] }

def craftItem2 : Transformation :=
  { removed_player_items := [⟨item1, 1⟩], added_player_items := [⟨item2, 1⟩],
    zones := [zoneZ] }

def shapingEnv : Env :=
  { transformations := [searchItem0, craftItem1, craftItem2],
    world := { items := [item0, item1, item2], zones := [zoneZ],
               zones_items := [] } }

def getItem2Goal : Task := .getItem ⟨item2, 1⟩ 10

/-- The goal task with REQUIRED shaping in the default terminal group. -/
def reqPurpose : Purpose :=
  Purpose.init.add_task getItem2Goal (some .REQUIRED_ACHIVEMENTS) ["default"]

/-- A state whose player inventory holds `n` of every item, away from
any useful zone. -/
def stateWith (n : Nat) : State :=
  ⟨fun _ => n, ⟨"start"⟩, fun _ _ => 0⟩

def woodTask : Task := .getItem ⟨⟨"wood"⟩, 1⟩ 5

def woodPurpose : Purpose := Purpose.init.add_task woodTask none ["default"]

/-! ### Claims -/

/-- C10: for a Purpose whose task list is empty, `reward` returns exactly
the configured timestep reward and `is_terminal` returns false, for every
input state. -/
theorem claim_C10_empty_purpose (p : Purpose) (s : State)
    (h : p.tasks = []) :
    p.reward s = p.timestep_reward ∧ (p.is_terminal s).1 = false := by
  constructor
  · simp [Purpose.reward, h]
  · simp [Purpose.is_terminal, h]

theorem claim_C10_empty_purpose_witness :
    Purpose.init.reward (stateWith 0) = Purpose.init.timestep_reward ∧
      (Purpose.init.is_terminal (stateWith 0)).1 = false :=
  claim_C10_empty_purpose Purpose.init (stateWith 0) rfl

/-- C4: once a task's ended flag is true, it stays true through every
subsequent `is_terminal` call of the episode, whatever the states (in
particular even when the task's predicate is false on them): no operation
performed by `is_terminal` resets a flag to false. -/
theorem claim_C4_flag_monotone (p : Purpose) (t : Task)
    (h : dictGet? p.task_has_ended t = some true) (states : List State) :
    dictGet? ((p.runTerminal states).2).task_has_ended t = some true := by
  induction states generalizing p with
  | nil => simpa [Purpose.runTerminal] using h
  | cons s rest ih =>
      simp only [Purpose.runTerminal]
      apply ih
      rw [isTerminal_flags, h]
      rfl

/-- The wood task ends on a state holding the item, and its flag is still
true two calls later although both later states lack the item. -/
theorem claim_C4_flag_monotone_witness :
    dictGet? ((woodPurpose.is_terminal (stateWith 1)).2).task_has_ended
        woodTask = some true ∧
      dictGet?
        (((woodPurpose.is_terminal (stateWith 1)).2).runTerminal
            [stateWith 0, stateWith 0]).2.task_has_ended woodTask =
        some true :=
  ⟨by decide,
   claim_C4_flag_monotone ((woodPurpose.is_terminal (stateWith 1)).2)
     woodTask (by decide) [stateWith 0, stateWith 0]⟩

/-- C9: purpose-level termination is monotone: once `is_terminal` has
returned true, every subsequent call returns true regardless of the
states passed, because group satisfaction depends only on the sticky
flags. -/
theorem claim_C9_terminal_monotone (p : Purpose) (s : State)
    (h : (p.is_terminal s).1 = true) (future : List State) :
    ((((p.is_terminal s).2).runTerminal future).1.all fun b => b) = true := by
  have hne : ¬p.tasks = [] := by
    intro hnil
    rw [Purpose.is_terminal, if_pos hnil] at h
    exact Bool.false_ne_true h
  have hsat : groupSat ((p.is_terminal s).2) = true := by
    unfold Purpose.is_terminal at h ⊢
    rw [if_neg hne] at h ⊢
    exact h
  exact runTerminal_all_true_of_groupSat future ((p.is_terminal s).2) hsat
    (by rw [isTerminal_tasks]; exact hne)

/-- The wood purpose terminates on a state holding the item, and both
later calls on item-less states still return true. -/
theorem claim_C9_terminal_monotone_witness :
    (woodPurpose.is_terminal (stateWith 1)).1 = true ∧
      ((((woodPurpose.is_terminal (stateWith 1)).2).runTerminal
          [stateWith 0, stateWith 0]).1.all fun b => b) = true :=
  ⟨by decide,
   claim_C9_terminal_monotone woodPurpose (stateWith 1) (by decide)
     [stateWith 0, stateWith 0]⟩

/-- C8: invoking REQUIRED or INPUTS shaping on a task that is not one of
the supported variants (here: any `custom` task) raises an error rather
than silently returning no subtasks, both directly and through
`Purpose.build`. -/
theorem claim_C8_unsupported_task (n : Nat) (r : ℚ) (env : Env) (sv : ℚ) :
    requiredSubtasks (.custom n r) env sv =
        .error "Unsupported reward shaping required for given task type" ∧
      inputsSubtasks (.custom n r) env sv =
        .error "Unsupported reward shaping inputs for given task type" ∧
      (Purpose.init.add_task (.custom n r) (some .REQUIRED_ACHIVEMENTS)
            ["default"]).build env =
        .error "Unsupported reward shaping required for given task type" ∧
      (Purpose.init.add_task (.custom n r) (some .INPUTS_ACHIVEMENT)
            ["default"]).build env =
        .error "Unsupported reward shaping inputs for given task type" := by
  refine ⟨rfl, rfl, ?_, ?_⟩
  · have hget : (dictGet? [((Task.custom n r : Task),
          RewardShaping.REQUIRED_ACHIVEMENTS)] (Task.custom n r)).getD
        RewardShaping.NONE = RewardShaping.REQUIRED_ACHIVEMENTS := by
      simp [dictGet?, List.find?]
    simp only [Purpose.build, Purpose.add_task, Purpose.init, dictSet,
      List.nil_append, Option.getD_some, List.mapM_cons, List.mapM_nil, hget,
      Purpose.addRewardShapingSubtasks]
    rw [if_neg (by simp)]
    rfl
  · have hget : (dictGet? [((Task.custom n r : Task),
          RewardShaping.INPUTS_ACHIVEMENT)] (Task.custom n r)).getD
        RewardShaping.NONE = RewardShaping.INPUTS_ACHIVEMENT := by
      simp [dictGet?, List.find?]
    simp only [Purpose.build, Purpose.add_task, Purpose.init, dictSet,
      List.nil_append, Option.getD_some, List.mapM_cons, List.mapM_nil, hget,
      Purpose.addRewardShapingSubtasks]
    rw [if_neg (by simp)]
    rfl

/-! ### Build helper lemmas -/

theorem addAllOptional_tasks (p : Purpose) (subs : List Task) :
    (p.addAllOptional subs).tasks = p.tasks ++ subs := by
  induction subs generalizing p with
  | nil => simp [Purpose.addAllOptional]
  | cons a rest ih =>
      simp only [Purpose.addAllOptional, List.foldl_cons] at *
      rw [ih]
      simp [Purpose.add_task]

theorem addAllOptional_groups (p : Purpose) (subs : List Task) :
    (p.addAllOptional subs).terminal_groups = p.terminal_groups := by
  induction subs generalizing p with
  | nil => rfl
  | cons a rest ih =>
      simp only [Purpose.addAllOptional, List.foldl_cons] at *
      rw [ih]
      rfl

theorem addAllOptional_shaping_none (p : Purpose) (subs : List Task) (t : Task)
    (h : t ∈ subs ∨ dictGet? p.reward_shaping t = some .NONE) :
    dictGet? ((p.addAllOptional subs).reward_shaping) t = some .NONE := by
  induction subs generalizing p with
  | nil =>
      rcases h with h | h
      · cases h
      · exact h
  | cons a rest ih =>
      simp only [Purpose.addAllOptional, List.foldl_cons] at *
      apply ih
      rcases h with h | h
      · rcases List.mem_cons.mp h with rfl | hmem
        · right
          simp [Purpose.add_task, dictGet?_dictSet]
        · left
          exact hmem
      · right
        simp only [Purpose.add_task]
        rw [dictGet?_dictSet]
        split <;> simp [h]

theorem foldl_addAllOptional_join (p : Purpose) (lists : List (List Task)) :
    lists.foldl (fun q subs => q.addAllOptional subs) p =
      p.addAllOptional lists.flatten := by
  induction lists generalizing p with
  | nil => rfl
  | cons a rest ih =>
      simp only [List.foldl_cons, List.flatten_cons]
      rw [ih]
      simp [Purpose.addAllOptional, List.foldl_append]

/-- `build` either leaves the purpose unchanged (empty task list) or
appends the joined synthesized subtask lists through `addAllOptional`. -/
theorem build_ok_elim (p : Purpose) (env : Env) (p' : Purpose)
    (h : p.build env = .ok p') :
    p' = p ∨ ∃ lists : List (List Task),
      p.tasks.mapM (fun t => p.addRewardShapingSubtasks t env
        ((dictGet? p.reward_shaping t).getD .NONE)) = .ok lists ∧
      p' = p.addAllOptional lists.flatten := by
  rw [Purpose.build] at h
  split at h
  · left
    exact (Except.ok.inj h).symm
  · right
    cases hm : p.tasks.mapM (fun t => p.addRewardShapingSubtasks t env
        ((dictGet? p.reward_shaping t).getD .NONE)) with
    | error e =>
        rw [hm] at h
        exact Except.noConfusion h
    | ok lists =>
        rw [hm] at h
        refine ⟨lists, rfl, ?_⟩
        have h' : Except.ok (lists.foldl (fun q subs => q.addAllOptional subs) p)
            = Except.ok p' := h
        rw [← foldl_addAllOptional_join]
        exact (Except.ok.inj h').symm

theorem build_terminal_groups (p : Purpose) (env : Env) (p' : Purpose)
    (h : p.build env = .ok p') :
    p'.terminal_groups = p.terminal_groups := by
  rcases build_ok_elim p env p' h with rfl | ⟨lists, _, rfl⟩
  · rfl
  · exact addAllOptional_groups p lists.flatten

theorem mapM_shaping_none (p : Purpose) (env : Env) (l : List Task)
    (h : ∀ t ∈ l, (dictGet? p.reward_shaping t).getD .NONE = .NONE) :
    l.mapM (fun t => p.addRewardShapingSubtasks t env
        ((dictGet? p.reward_shaping t).getD .NONE)) =
      .ok (l.map fun _ => ([] : List Task)) := by
  induction l with
  | nil => rfl
  | cons a rest ih =>
      rw [List.mapM_cons, h a (List.mem_cons_self a rest),
        ih fun t ht => h t (List.mem_cons_of_mem a ht)]
      rfl

theorem foldl_addAllOptional_nils (q : Purpose) (l : List (List Task))
    (h : ∀ x ∈ l, x = []) :
    l.foldl (fun q' subs => q'.addAllOptional subs) q = q := by
  induction l generalizing q with
  | nil => rfl
  | cons a rest ih =>
      rw [List.foldl_cons, h a (List.mem_cons_self a rest)]
      exact ih q fun x hx => h x (List.mem_cons_of_mem a hx)

/-! ### Scenario claims C2, C6, C7 -/

/-- C2: on the scenario world, building the REQUIRED-shaped
GetItemTask(item2) purpose synthesizes exactly the subtasks
{GetItemTask(item0), GetItemTask(item1), GoToZoneTask(Z)} (as a set),
appended after the goal, leaves the terminal groups as they were, and
every synthesized subtask is optional (in no terminal group). -/
theorem claim_C2_required_scenario :
    (reqPurpose.build shapingEnv).map (fun q => q.tasks) =
        .ok [getItem2Goal, .getItem ⟨item1, 1⟩ 1, .getItem ⟨item0, 1⟩ 1,
             .goToZone zoneZ 1] ∧
      [Task.getItem ⟨item1, 1⟩ 1, .getItem ⟨item0, 1⟩ 1,
          .goToZone zoneZ 1].toFinset =
        ({.getItem ⟨item0, 1⟩ 1, .getItem ⟨item1, 1⟩ 1, .goToZone zoneZ 1} :
          Finset Task) ∧
      (reqPurpose.build shapingEnv).map (fun q => q.terminal_groups) =
        .ok [("default", [getItem2Goal])] ∧
      (reqPurpose.build shapingEnv).map (fun q => q.optional_tasks) =
        .ok [.getItem ⟨item1, 1⟩ 1, .getItem ⟨item0, 1⟩ 1,
             .goToZone zoneZ 1] :=
  ⟨by decide, by decide, by decide, by decide⟩

/-- C6: every subtask synthesized by `build` is recorded with reward
shaping NONE, the terminal-groups mapping is exactly what it was before
the call, and no synthesized subtask would cause further subtasks to be
synthesized (its own synthesis yields the empty list). -/
theorem claim_C6_build_frame (p : Purpose) (env : Env) (p' : Purpose)
    (h : p.build env = .ok p') :
    p'.terminal_groups = p.terminal_groups ∧
      ∃ subs : List Task, p'.tasks = p.tasks ++ subs ∧
        (∀ t ∈ subs, dictGet? p'.reward_shaping t = some .NONE) ∧
        (∀ t ∈ subs, p'.addRewardShapingSubtasks t env
            ((dictGet? p'.reward_shaping t).getD .NONE) = .ok []) := by
  refine ⟨build_terminal_groups p env p' h, ?_⟩
  rcases build_ok_elim p env p' h with rfl | ⟨lists, _, rfl⟩
  · exact ⟨[], by simp, by simp, by simp⟩
  · refine ⟨lists.flatten, addAllOptional_tasks p lists.flatten, ?_, ?_⟩
    · intro t ht
      exact addAllOptional_shaping_none p lists.flatten t (Or.inl ht)
    · intro t ht
      rw [addAllOptional_shaping_none p lists.flatten t (Or.inl ht)]
      rfl

/-- The built scenario purpose, used to witness the frame conditions. -/
def builtReq : Purpose :=
  match reqPurpose.build shapingEnv with
  | .ok q => q
  | .error _ => reqPurpose

theorem claim_C6_build_frame_witness :
    reqPurpose.build shapingEnv = .ok builtReq ∧
      builtReq.terminal_groups = reqPurpose.terminal_groups :=
  ⟨by decide,
   (claim_C6_build_frame reqPurpose shapingEnv builtReq (by decide)).1⟩

/-- C7 counterexample: on the scenario world, building the
REQUIRED-shaped purpose twice does not equal building it once (the second
call appends duplicate shaping subtasks), refuting idempotence of
`build`. -/
theorem claim_C7_counterexample :
    ((reqPurpose.build shapingEnv).bind fun q => q.build shapingEnv) ≠
      reqPurpose.build shapingEnv := by decide

/-- C7 (amended): `build` is idempotent exactly when it synthesizes
nothing; in particular when every task's reward shaping is NONE, `build`
is the identity, so a second call changes nothing. -/
theorem claim_C7_build_identity_when_no_shaping (p : Purpose) (env : Env)
    (h : ∀ t ∈ p.tasks, (dictGet? p.reward_shaping t).getD .NONE = .NONE) :
    p.build env = .ok p ∧
      ((p.build env).bind fun q => q.build env) = p.build env := by
  have hid : p.build env = .ok p := by
    rw [Purpose.build]
    split
    · rfl
    · rw [mapM_shaping_none p env p.tasks h]
      show Except.ok ((p.tasks.map fun _ => ([] : List Task)).foldl
          (fun q subs => q.addAllOptional subs) p) = Except.ok p
      rw [foldl_addAllOptional_nils p _ (by simp)]
  refine ⟨hid, ?_⟩
  rw [hid]
  exact hid

theorem claim_C7_build_identity_when_no_shaping_witness :
    woodPurpose.build shapingEnv = .ok woodPurpose ∧
      ((woodPurpose.build shapingEnv).bind fun q => q.build shapingEnv) =
        woodPurpose.build shapingEnv :=
  claim_C7_build_identity_when_no_shaping woodPurpose shapingEnv (by decide)

/-! ### Optional tasks (C5) -/

theorem list_any_ext {α : Type} {l : List α} {f g : α → Bool}
    (h : ∀ x ∈ l, f x = g x) : l.any f = l.any g := by
  induction l with
  | nil => rfl
  | cons a rest ih =>
      simp only [List.any_cons]
      rw [h a (List.mem_cons_self a rest),
        ih fun x hx => h x (List.mem_cons_of_mem a hx)]

theorem list_all_ext {α : Type} {l : List α} {f g : α → Bool}
    (h : ∀ x ∈ l, f x = g x) : l.all f = l.all g := by
  induction l with
  | nil => rfl
  | cons a rest ih =>
      simp only [List.all_cons]
      rw [h a (List.mem_cons_self a rest),
        ih fun x hx => h x (List.mem_cons_of_mem a hx)]

theorem mem_foldl_append_groups (groups : List (String × List Task))
    (init : List Task) (x : Task) :
    (x ∈ groups.foldl (fun acc g => acc ++ g.2) init) ↔
      x ∈ init ∨ ∃ g ∈ groups, x ∈ g.2 := by
  induction groups generalizing init with
  | nil => simp
  | cons a rest ih =>
      simp only [List.foldl_cons]
      rw [ih]
      simp only [List.mem_append, List.mem_cons]
      constructor
      · rintro ((h | h) | ⟨g, hg, hx⟩)
        · exact Or.inl h
        · exact Or.inr ⟨a, Or.inl rfl, h⟩
        · exact Or.inr ⟨g, Or.inr hg, hx⟩
      · rintro (h | ⟨g, (rfl | hg), hx⟩)
        · exact Or.inl (Or.inl h)
        · exact Or.inl (Or.inr hx)
        · exact Or.inr ⟨g, hg, hx⟩

theorem reward_eq_foldl (p : Purpose) (s : State) :
    p.reward s = p.tasks.foldl
      (fun acc u => acc + u.reward ((dictGet? p.task_has_ended u).getD false) s)
      p.timestep_reward := by
  unfold Purpose.reward
  split
  · next h =>
      rw [h]
      rfl
  · rfl

theorem isTerminal_false_of_no_groups (p : Purpose) (s : State)
    (h : p.terminal_groups = []) : (p.is_terminal s).1 = false := by
  unfold Purpose.is_terminal
  split
  · rfl
  · simp [h]

/-- Simulation step: a purpose extended by one task that appears in no
terminal group produces the same `is_terminal` answer, and the extension
relation is preserved by the call. -/
theorem isTerminal_drop_optional (p q : Purpose) (t : Task) (s : State)
    (htasks : q.tasks = p.tasks ++ [t])
    (hgroups : q.terminal_groups = p.terminal_groups)
    (hflags : ∀ u, ¬u = t →
      dictGet? q.task_has_ended u = dictGet? p.task_has_ended u)
    (hgt : ∀ g ∈ p.terminal_groups, ¬t ∈ g.2)
    (hempty : p.tasks = [] → p.terminal_groups = []) :
    (q.is_terminal s).1 = (p.is_terminal s).1 ∧
      ((q.is_terminal s).2).tasks = ((p.is_terminal s).2).tasks ++ [t] ∧
      ((q.is_terminal s).2).terminal_groups =
        ((p.is_terminal s).2).terminal_groups ∧
      ∀ u, ¬u = t →
        dictGet? ((q.is_terminal s).2).task_has_ended u =
          dictGet? ((p.is_terminal s).2).task_has_ended u := by
  have hqne : ¬q.tasks = [] := by
    rw [htasks]
    simp
  have hflags' : ∀ u, ¬u = t →
      dictGet? ((q.is_terminal s).2).task_has_ended u =
        dictGet? ((p.is_terminal s).2).task_has_ended u := by
    intro u hu
    rw [isTerminal_flags, isTerminal_flags, hflags u hu]
    have hmem : decide (u ∈ q.tasks) = decide (u ∈ p.tasks) := by
      apply decide_eq_decide.mpr
      rw [htasks]
      simp [List.mem_append, hu]
    rw [hmem]
  refine ⟨?_, ?_, ?_, hflags'⟩
  · by_cases hp : p.tasks = []
    · have hpfst : (p.is_terminal s).1 = false := by
        rw [Purpose.is_terminal, if_pos hp]
      rw [hpfst, isTerminal_fst q s hqne, hgroups, hempty hp]
      rfl
    · rw [isTerminal_fst q s hqne, isTerminal_fst p s hp, hgroups]
      apply list_any_ext
      intro g hg
      apply list_all_ext
      intro u hug
      have hu : ¬u = t := by
        intro hut
        exact hgt g hg (hut ▸ hug)
      rw [dictGet?_updateEnded, dictGet?_updateEnded, hflags u hu]
      have hmem : decide (u ∈ q.tasks) = decide (u ∈ p.tasks) := by
        apply decide_eq_decide.mpr
        rw [htasks]
        simp [List.mem_append, hu]
      rw [hmem]
  · rw [isTerminal_tasks, isTerminal_tasks, htasks]
  · rw [isTerminal_groups, isTerminal_groups, hgroups]

/-- Whole-episode simulation: the extended purpose returns the same
answer at every call. -/
theorem runTerminal_drop_optional (states : List State) (p q : Purpose)
    (t : Task)
    (htasks : q.tasks = p.tasks ++ [t])
    (hgroups : q.terminal_groups = p.terminal_groups)
    (hflags : ∀ u, ¬u = t →
      dictGet? q.task_has_ended u = dictGet? p.task_has_ended u)
    (hgt : ∀ g ∈ p.terminal_groups, ¬t ∈ g.2)
    (hempty : p.tasks = [] → p.terminal_groups = []) :
    (q.runTerminal states).1 = (p.runTerminal states).1 := by
  induction states generalizing p q with
  | nil => rfl
  | cons s rest ih =>
      obtain ⟨h1, h2, h3, h4⟩ :=
        isTerminal_drop_optional p q t s htasks hgroups hflags hgt hempty
      simp only [Purpose.runTerminal]
      rw [h1, ih ((p.is_terminal s).2) ((q.is_terminal s).2) h2 h3 h4
        (by rw [isTerminal_groups]; exact hgt)
        (by rw [isTerminal_tasks, isTerminal_groups]; exact hempty)]

/-- C5: a task added with falsy terminal groups (None or the empty
string) joins no terminal group and stays optional; it still contributes
its reward to `Purpose.reward` once its predicate holds; the episode's
`is_terminal` answers are exactly those of the purpose without the task;
and a purpose whose terminal-group mapping is empty (all tasks optional)
never terminates. -/
theorem claim_C5_optional_task (p : Purpose) (t : Task) (s : State)
    (states : List State)
    (h1 : ¬t ∈ p.tasks)
    (hgt : ∀ g ∈ p.terminal_groups, ¬t ∈ g.2)
    (hempty : p.tasks = [] → p.terminal_groups = []) :
    (p.add_task t none []).terminal_groups = p.terminal_groups ∧
      t ∈ (p.add_task t none []).optional_tasks ∧
      (t.pred s = true →
        (p.add_task t none []).reward s = p.reward s + t.rewardValue) ∧
      ((p.add_task t none []).runTerminal states).1 =
        (p.runTerminal states).1 ∧
      (p.terminal_groups = [] →
        ((p.add_task t none []).is_terminal s).1 = false) := by
  have hgroups : (p.add_task t none []).terminal_groups =
      p.terminal_groups := rfl
  have htasks : (p.add_task t none []).tasks = p.tasks ++ [t] := rfl
  have hflags : ∀ u, ¬u = t →
      dictGet? (p.add_task t none []).task_has_ended u =
        dictGet? p.task_has_ended u := by
    intro u hu
    show dictGet? (dictSet p.task_has_ended t false) u = _
    rw [dictGet?_dictSet, if_neg hu]
  refine ⟨hgroups, ?_, ?_, ?_, ?_⟩
  · unfold Purpose.optional_tasks
    rw [List.mem_filter]
    constructor
    · rw [htasks]
      simp
    · rw [hgroups]
      have : ¬t ∈ p.terminal_groups.foldl (fun acc g => acc ++ g.2) [] := by
        rw [mem_foldl_append_groups]
        rintro (h | ⟨g, hg, hx⟩)
        · cases h
        · exact hgt g hg hx
      simpa using this
  · intro hpred
    rw [reward_eq_foldl, reward_eq_foldl]
    show (p.tasks ++ [t]).foldl
        (fun acc u => acc +
          u.reward ((dictGet? (dictSet p.task_has_ended t false) u).getD false)
            s) p.timestep_reward = _
    rw [List.foldl_append]
    have hbody : p.tasks.foldl
        (fun acc u => acc +
          u.reward ((dictGet? (dictSet p.task_has_ended t false) u).getD false)
            s) p.timestep_reward =
        p.tasks.foldl
          (fun acc u => acc +
            u.reward ((dictGet? p.task_has_ended u).getD false) s)
          p.timestep_reward := by
      apply List.foldl_ext
      intro acc u hu
      have hut : ¬u = t := fun h => h1 (h ▸ hu)
      rw [dictGet?_dictSet, if_neg hut]
    rw [hbody]
    simp only [List.foldl_cons, List.foldl_nil]
    rw [dictGet?_dictSet]
    simp [Task.reward, hpred]
  · exact runTerminal_drop_optional states p (p.add_task t none []) t htasks
      hgroups hflags hgt hempty
  · intro hng
    exact isTerminal_false_of_no_groups _ s (hgroups.trans hng)

def homeTask : Task := .goToZone ⟨"home"⟩ 3

theorem claim_C5_optional_task_witness :
    (woodPurpose.add_task homeTask none []).terminal_groups =
        woodPurpose.terminal_groups ∧
      homeTask ∈ (woodPurpose.add_task homeTask none []).optional_tasks :=
  ⟨(claim_C5_optional_task woodPurpose homeTask (stateWith 0) [stateWith 0]
      (by decide) (by decide) (by decide)).1,
   (claim_C5_optional_task woodPurpose homeTask (stateWith 0) [stateWith 0]
      (by decide) (by decide) (by decide)).2.1⟩

/-! ### The terminal-group law (C1) -/

/-- C1: `is_terminal` returns true exactly when at least one terminal
group has all its member tasks flagged ended after the sticky update (OR
across groups, AND within a group); in particular, for the purpose with
task A in groups "g1" and "default", B in "g1", C in "default", and for
every sequence of earlier `is_terminal` calls, the next call returns true
exactly when (A done and B done) or (A done and C done), where a task
counts as done when its predicate held at some visited state. -/
theorem claim_C1_terminal_group_law (A B C : Task) (states : List State)
    (s : State) (p0 : Purpose) (hp0 : ¬p0.tasks = []) :
    ((p0.is_terminal s).1 = p0.terminal_groups.any fun g =>
        g.2.all fun t =>
          (dictGet? (updateEnded p0.tasks s p0.task_has_ended) t).getD false) ∧
      (((((Purpose.init.add_task A none ["g1", "default"]).add_task B none
              ["g1"]).add_task C none
            ["default"]).runTerminal states).2.is_terminal s).1
        = (((states ++ [s]).any A.pred && (states ++ [s]).any B.pred)
            || ((states ++ [s]).any A.pred && (states ++ [s]).any C.pred)) := by
  refine ⟨isTerminal_fst p0 s hp0, ?_⟩
  set p := ((Purpose.init.add_task A none ["g1", "default"]).add_task B none
    ["g1"]).add_task C none ["default"] with hp
  have htasks : p.tasks = [A, B, C] := rfl
  have hgroups : p.terminal_groups = [("g1", [A, B]), ("default", [A, C])] :=
    rfl
  have hflagsX : ∀ X : Task, dictGet? p.task_has_ended X =
      if X = C then some false
      else if X = B then some false
      else if X = A then some false else none := by
    intro X
    show dictGet? (dictSet (dictSet (dictSet [] A false) B false) C false) X
      = _
    rw [dictGet?_dictSet, dictGet?_dictSet, dictGet?_dictSet]
    simp [dictGet?]
  have flagA : dictGet? p.task_has_ended A = some false := by
    rw [hflagsX]
    split_ifs <;> simp_all
  have flagB : dictGet? p.task_has_ended B = some false := by
    rw [hflagsX]
    split_ifs <;> simp_all
  have flagC : dictGet? p.task_has_ended C = some false := by
    rw [hflagsX]
    split_ifs <;> simp_all
  have hA : A ∈ p.tasks := by
    rw [htasks]
    simp
  have hB : B ∈ p.tasks := by
    rw [htasks]
    simp
  have hC : C ∈ p.tasks := by
    rw [htasks]
    simp
  have hfA : dictGet? ((p.runTerminal states).2).task_has_ended A =
      some (states.any A.pred) := by
    simpa using runTerminal_flags p states A hA false flagA
  have hfB : dictGet? ((p.runTerminal states).2).task_has_ended B =
      some (states.any B.pred) := by
    simpa using runTerminal_flags p states B hB false flagB
  have hfC : dictGet? ((p.runTerminal states).2).task_has_ended C =
      some (states.any C.pred) := by
    simpa using runTerminal_flags p states C hC false flagC
  have hne : ¬((p.runTerminal states).2).tasks = [] := by
    rw [runTerminal_tasks, htasks]
    simp
  rw [isTerminal_fst _ s hne, runTerminal_groups, hgroups]
  have upd : ∀ X : Task, X ∈ p.tasks →
      dictGet? ((p.runTerminal states).2).task_has_ended X =
        some (states.any X.pred) →
      (dictGet? (updateEnded ((p.runTerminal states).2).tasks s
          ((p.runTerminal states).2).task_has_ended) X).getD false =
        (states ++ [s]).any X.pred := by
    intro X hX hfX
    rw [dictGet?_updateEnded, hfX]
    have hXmem : X ∈ ((p.runTerminal states).2).tasks := by
      rw [runTerminal_tasks]
      exact hX
    simp [hXmem, List.any_append]
  simp only [List.any_cons, List.any_nil, List.all_cons, List.all_nil]
  rw [upd A hA hfA, upd B hB hfB, upd C hC hfC]
  simp

theorem claim_C1_terminal_group_law_witness :
    (woodPurpose.is_terminal (stateWith 1)).1 =
      woodPurpose.terminal_groups.any fun g =>
        g.2.all fun t =>
          (dictGet? (updateEnded woodPurpose.tasks (stateWith 1)
              woodPurpose.task_has_ended) t).getD false :=
  (claim_C1_terminal_group_law woodTask homeTask (Task.custom 0 1)
    [stateWith 0] (stateWith 1) woodPurpose (by decide)).1

/-! ### INPUTS shaping membership (C3) -/

theorem mem_insertU {α : Type} [DecidableEq α] (l : List α) (a x : α) :
    x ∈ insertU l a ↔ x ∈ l ∨ x = a := by
  unfold insertU
  split
  · next h => exact ⟨Or.inl, fun h' => h'.elim id fun hx => hx ▸ h⟩
  · simp

theorem mem_unionU {α : Type} [DecidableEq α] (l xs : List α) (x : α) :
    x ∈ unionU l xs ↔ x ∈ l ∨ x ∈ xs := by
  induction xs generalizing l with
  | nil => simp [unionU]
  | cons a rest ih =>
      show x ∈ unionU (insertU l a) rest ↔ _
      rw [ih, mem_insertU]
      simp only [List.mem_cons]
      tauto

theorem mem_foldl_unionU {α β : Type} [DecidableEq α] (f : β → List α)
    (ts : List β) (init : List α) (x : α) :
    x ∈ ts.foldl (fun acc t => unionU acc (f t)) init ↔
      x ∈ init ∨ ∃ t ∈ ts, x ∈ f t := by
  induction ts generalizing init with
  | nil => simp
  | cons a rest ih =>
      simp only [List.foldl_cons]
      rw [ih, mem_unionU]
      constructor
      · rintro ((h | h) | ⟨t, ht, hx⟩)
        · exact Or.inl h
        · exact Or.inr ⟨a, List.mem_cons_self a rest, h⟩
        · exact Or.inr ⟨t, List.mem_cons_of_mem a ht, hx⟩
      · rintro (h | ⟨t, ht, hx⟩)
        · exact Or.inl (Or.inl h)
        · rcases List.mem_cons.mp ht with rfl | ht'
          · exact Or.inl (Or.inr hx)
          · exact Or.inr ⟨t, ht', hx⟩

theorem collectInputs_eq (rel : List Transformation) (z0 : List Zone) :
    collectInputs rel z0 =
      (rel.foldl (fun acc t => unionU acc t.consumed_items) [],
       rel.foldl (fun acc t => unionU acc t.zones) z0,
       rel.foldl (fun acc t => unionU acc t.consumed_zones_items) []) := by
  suffices hgen : ∀ (l : List Transformation) (a : List Item) (b : List Zone)
      (c : List Item),
      l.foldl (fun (acc : List Item × List Zone × List Item) t =>
          (unionU acc.1 t.consumed_items,
           if t.zones ≠ [] then unionU acc.2.1 t.zones else acc.2.1,
           unionU acc.2.2 t.consumed_zones_items)) (a, b, c) =
        (l.foldl (fun acc t => unionU acc t.consumed_items) a,
         l.foldl (fun acc t => unionU acc t.zones) b,
         l.foldl (fun acc t => unionU acc t.consumed_zones_items) c) by
    exact hgen rel [] z0 []
  intro l
  induction l with
  | nil =>
      intro a b c
      rfl
  | cons t rest ih =>
      intro a b c
      simp only [List.foldl_cons]
      have hz : (if t.zones ≠ [] then unionU b t.zones else b) =
          unionU b t.zones := by
        by_cases h : t.zones = []
        · rw [if_neg (by simp [h]), h]
          rfl
        · rw [if_pos h]
      rw [hz]
      exact ih (unionU a t.consumed_items) (unionU b t.zones)
        (unionU c t.consumed_zones_items)

theorem mem_transfosGivingItem (env : Env) (g : Item) (tr : Transformation) :
    tr ∈ transfosGivingItem env (some g) ↔
      tr ∈ env.transformations ∧
        (g ∈ tr.produced_items ∧ ¬g ∈ tr.consumed_items) := by
  unfold transfosGivingItem
  rw [List.mem_filter]
  simp

theorem transfosPlacingZoneItem_none (env : Env) :
    transfosPlacingZoneItem env none = [] := by
  unfold transfosPlacingZoneItem
  induction env.transformations with
  | nil => rfl
  | cons a rest ih =>
      rw [List.filter_cons]
      exact ih

theorem transfosGoingToAnyZones_nil (env : Env) :
    transfosGoingToAnyZones env [] = [] := by
  unfold transfosGoingToAnyZones
  induction env.transformations with
  | nil => rfl
  | cons a rest ih =>
      rw [List.filter_cons]
      cases h : a.destination <;> simpa [h] using ih

theorem getItem_mem_build (items : List Item) (zones : List Zone)
    (zitems : List Item) (sv : ℚ) (i : Item) :
    (Task.getItem ⟨i, 1⟩ sv ∈ buildRewardShapingSubtasks items zones zitems sv)
      ↔ i ∈ items := by
  unfold buildRewardShapingSubtasks
  simp [eq_comm]

theorem goToZone_mem_build (items : List Item) (zones : List Zone)
    (zitems : List Item) (sv : ℚ) (z : Zone) :
    (Task.goToZone z sv ∈ buildRewardShapingSubtasks items zones zitems sv)
      ↔ z ∈ zones := by
  unfold buildRewardShapingSubtasks
  simp [eq_comm]

theorem placeItem_mem_build (items : List Item) (zones : List Zone)
    (zitems : List Item) (sv : ℚ) (i : Item) :
    (Task.placeItem ⟨i, 1⟩ [] sv ∈
        buildRewardShapingSubtasks items zones zitems sv)
      ↔ i ∈ zitems := by
  unfold buildRewardShapingSubtasks
  simp [eq_comm]

def itemX : Item := ⟨"x"⟩

def zoneW : Zone := ⟨"W"⟩

/-- A world with no transformations at all: nothing produces anything. -/
def emptyEnv : Env :=
  { transformations := [],
    world := { items := [itemX], zones := [zoneW], zones_items := [itemX] } }

/-- A movement transformation whose zones precondition contains its own
destination: it reaches zone W while also requiring zone W. -/
def moveToW : Transformation :=
  { destination := some zoneW, zones := [zoneW],
    removed_player_items := [⟨itemX, 1⟩] }

def moveEnv : Env :=
  { transformations := [moveToW],
    world := { items := [itemX], zones := [zoneW], zones_items := [] } }

/-- C3 counterexample: in a world with no transformations, no
transformation produces the goal, so the claimed subtask set (one per
element of the relevant transformations' remove sets and zones
preconditions) is empty; yet INPUTS shaping of a zone-restricted
PlaceItemTask synthesizes GoToZoneTask(W) — the goal's candidate zone is
pre-seeded into the relevant zones beyond the remove sets and zones
preconditions, refuting the claim as stated for every task. -/
theorem claim_C3_counterexample :
    emptyEnv.transformations = [] ∧
      inputsSubtasks (Task.placeItem ⟨itemX, 1⟩ [zoneW] 5) emptyEnv 1 =
        .ok [Task.goToZone zoneW 1] ∧
      ¬inputsSubtasks (Task.placeItem ⟨itemX, 1⟩ [zoneW] 5) emptyEnv 1 =
        .ok [] :=
  ⟨rfl, by decide, by decide⟩

/-- C3 (amended): for a GetItemTask goal under INPUTS shaping, the
synthesized subtasks are exactly one per element of the remove sets
(items and zone items) and zones preconditions of the transformations
that produce the goal item without also consuming it (one hop, no
transitive closure); on the scenario world, INPUTS shaping of
GetItemTask(item2) synthesizes exactly {GetItemTask(item1),
GoToZoneTask(Z)}, excluding item0.  For the other goal variants the rule
deviates: a zone-restricted PlaceItemTask's candidate zones are
pre-seeded as GoToZoneTask subtasks even when no transformation is
relevant, and for zone goals the transformations are selected by
destination membership alone, without a not-also-consuming exclusion (a
movement transformation requiring its own destination still
contributes its remove set and zones precondition). -/
theorem claim_C3_inputs_shaping (env : Env) (stack : ItemStack) (r sv : ℚ)
    (subs : List Task)
    (h : inputsSubtasks (.getItem stack r) env sv = .ok subs) :
    (∀ i : Item, (Task.getItem ⟨i, 1⟩ sv ∈ subs ↔
        ∃ tr ∈ env.transformations,
          (stack.item ∈ tr.produced_items ∧
            ¬stack.item ∈ tr.consumed_items) ∧
          i ∈ tr.consumed_items)) ∧
      (∀ z : Zone, (Task.goToZone z sv ∈ subs ↔
          ∃ tr ∈ env.transformations,
            (stack.item ∈ tr.produced_items ∧
              ¬stack.item ∈ tr.consumed_items) ∧
            z ∈ tr.zones)) ∧
      (∀ i : Item, (Task.placeItem ⟨i, 1⟩ [] sv ∈ subs ↔
          ∃ tr ∈ env.transformations,
            (stack.item ∈ tr.produced_items ∧
              ¬stack.item ∈ tr.consumed_items) ∧
            i ∈ tr.consumed_zones_items)) ∧
      inputsSubtasks getItem2Goal shapingEnv 1 =
        .ok [.getItem ⟨item1, 1⟩ 1, .goToZone zoneZ 1] ∧
      ¬Task.getItem ⟨item0, 1⟩ 1 ∈
        [Task.getItem ⟨item1, 1⟩ 1, .goToZone zoneZ 1] ∧
      inputsSubtasks (Task.placeItem ⟨itemX, 1⟩ [zoneW] 5) emptyEnv 1 =
        .ok [Task.goToZone zoneW 1] ∧
      inputsSubtasks (Task.goToZone zoneW 5) moveEnv 1 =
        .ok [Task.getItem ⟨itemX, 1⟩ 1, Task.goToZone zoneW 1] := by
  have h' : Except.ok (buildRewardShapingSubtasks
      (collectInputs (transfosGivingItem env (some stack.item)
        ++ transfosPlacingZoneItem env none
        ++ transfosGoingToAnyZones env []) []).1
      (collectInputs (transfosGivingItem env (some stack.item)
        ++ transfosPlacingZoneItem env none
        ++ transfosGoingToAnyZones env []) []).2.1
      (collectInputs (transfosGivingItem env (some stack.item)
        ++ transfosPlacingZoneItem env none
        ++ transfosGoingToAnyZones env []) []).2.2 sv) = Except.ok subs := h
  have hrel : transfosGivingItem env (some stack.item)
        ++ transfosPlacingZoneItem env none
        ++ transfosGoingToAnyZones env []
      = transfosGivingItem env (some stack.item) := by
    rw [transfosPlacingZoneItem_none, transfosGoingToAnyZones_nil]
    simp
  rw [hrel, collectInputs_eq] at h'
  have hsubs := (Except.ok.inj h').symm
  refine ⟨?_, ?_, ?_, by decide, by decide, by decide, by decide⟩
  · intro i
    rw [hsubs, getItem_mem_build, mem_foldl_unionU]
    simp only [List.not_mem_nil, false_or]
    constructor
    · rintro ⟨tr, htr, hi⟩
      obtain ⟨htr', hcond⟩ := (mem_transfosGivingItem env stack.item tr).mp htr
      exact ⟨tr, htr', hcond, hi⟩
    · rintro ⟨tr, htr, hcond, hi⟩
      exact ⟨tr, (mem_transfosGivingItem env stack.item tr).mpr ⟨htr, hcond⟩,
        hi⟩
  · intro z
    rw [hsubs, goToZone_mem_build, mem_foldl_unionU]
    simp only [List.not_mem_nil, false_or]
    constructor
    · rintro ⟨tr, htr, hz⟩
      obtain ⟨htr', hcond⟩ := (mem_transfosGivingItem env stack.item tr).mp htr
      exact ⟨tr, htr', hcond, hz⟩
    · rintro ⟨tr, htr, hcond, hz⟩
      exact ⟨tr, (mem_transfosGivingItem env stack.item tr).mpr ⟨htr, hcond⟩,
        hz⟩
  · intro i
    rw [hsubs, placeItem_mem_build, mem_foldl_unionU]
    simp only [List.not_mem_nil, false_or]
    constructor
    · rintro ⟨tr, htr, hi⟩
      obtain ⟨htr', hcond⟩ := (mem_transfosGivingItem env stack.item tr).mp htr
      exact ⟨tr, htr', hcond, hi⟩
    · rintro ⟨tr, htr, hcond, hi⟩
      exact ⟨tr, (mem_transfosGivingItem env stack.item tr).mpr ⟨htr, hcond⟩,
        hi⟩

theorem claim_C3_inputs_shaping_witness :
    Task.getItem ⟨item1, 1⟩ 1 ∈
        [Task.getItem ⟨item1, 1⟩ 1, Task.goToZone zoneZ 1] ↔
      ∃ tr ∈ shapingEnv.transformations,
        (item2 ∈ tr.produced_items ∧ ¬item2 ∈ tr.consumed_items) ∧
        item1 ∈ tr.consumed_items :=
  (claim_C3_inputs_shaping shapingEnv ⟨item2, 1⟩ 10 1
    [Task.getItem ⟨item1, 1⟩ 1, Task.goToZone zoneZ 1] (by decide)).1 item1

end Crafting
